import Mathlib

/-!
# Shallow embedding of the portfolio website's client-side scripts

This file embeds the behaviour of `script.js`, `assets/js/deck-carousel.js`
and the subscribe-form script of the repository in Lean and proves the
specification's claims about them.

Modelling conventions:
* a JavaScript string is a `List Char`;
* a JavaScript number is an `Option Int`, with `none` standing for `NaN`;
* a DOM lookup that can return `null` is an `Option` (or a presence flag
  when only existence matters);
* code that can throw a `TypeError` is modelled in `Except`.
-/

namespace Portfolio

/-! ## JavaScript string primitives

Environment APIs used by the scripts (`String.prototype.trim`,
`String.prototype.replaceAll`, `parseInt`, the `||` operator), modelled at
the granularity the code relies on. -/

/-- Whitespace recognised by JavaScript's `trim` / `parseInt`
(space, tab, line feed, carriage return, vertical tab, form feed). -/
def isJsSpace (c : Char) : Bool :=
  c == ' ' || c == '\t' || c == '\n' || c == '\r' || c == '\x0b' || c == '\x0c'

/-- `String.prototype.trim`: strip leading and trailing whitespace. -/
def trimJS (s : List Char) : List Char :=
  ((s.dropWhile isJsSpace).reverse.dropWhile isJsSpace).reverse

/-- Numeric value of a digit string (used under a `takeWhile isDigit`). -/
def digitsToNat (d : List Char) : Nat :=
  d.foldl (fun a c => a * 10 + (c.toNat - 48)) 0

/-- JavaScript `parseInt(s, 10)`: skip whitespace, optional sign, then the
longest digit run; `none` (`NaN`) when no digit follows. -/
def parseIntJS (s : List Char) : Option Int :=
  match s.dropWhile isJsSpace with
  | '-' :: r =>
    let d := r.takeWhile Char.isDigit
    if d = [] then none else some (-(digitsToNat d : Int))
  | '+' :: r =>
    let d := r.takeWhile Char.isDigit
    if d = [] then none else some ((digitsToNat d : Int))
  | r =>
    let d := r.takeWhile Char.isDigit
    if d = [] then none else some ((digitsToNat d : Int))

/-- JavaScript `a || b` on numbers (`0` and `NaN` are falsy). -/
def jsOrNum (a b : Option Int) : Option Int :=
  match a with
  | some n => if n = 0 then b else some n
  | none => b

/-- Multiplication by a constant, propagating `NaN`. -/
def jsMul (a : Option Int) (k : Int) : Option Int := a.map (· * k)

/-- Addition, propagating `NaN`. -/
def jsAdd (a b : Option Int) : Option Int :=
  match a, b with
  | some x, some y => some (x + y)
  | _, _ => none

/-- JavaScript `a || b` where `a` is a string-or-null and `b` a string
(`null` and the empty string are falsy). -/
def jsOrStr (a : Option (List Char)) (b : List Char) : List Char :=
  match a with
  | some s => if s = [] then b else s
  | none => b

/-- JavaScript `a || b` where both operands are string-or-null. -/
def jsOrOpt (a b : Option (List Char)) : Option (List Char) :=
  match a with
  | some s => if s = [] then b else some s
  | none => b

/-- `String.prototype.replaceAll(p, t)`: leftmost, non-overlapping, and the
replacement text is never rescanned.  The scripts only call it with
non-empty literal patterns, so the empty-pattern behaviour is irrelevant
and guarded away. -/
def replaceAll (p t : List Char) : List Char → List Char
  | [] => []
  | c :: rest =>
    if h : p ≠ [] ∧ p.isPrefixOf (c :: rest) then
      t ++ replaceAll p t ((c :: rest).drop p.length)
    else
      c :: replaceAll p t rest
termination_by s => s.length
decreasing_by
  · simp only [List.length_drop]
    exact Nat.sub_lt (Nat.succ_pos _) (List.length_pos.mpr h.1)
  · simp

/-- `p` occurs as a contiguous substring of `s`. -/
def occurs (p s : List Char) : Prop := ∃ a b, s = a ++ p ++ b

/-- Boolean substring test. -/
def hasSub (p : List Char) : List Char → Bool
  | [] => p.isEmpty
  | c :: rest => p.isPrefixOf (c :: rest) || hasSub p rest

theorem isPrefixOf_iff_exists (p : List Char) :
    ∀ l, p.isPrefixOf l = true ↔ ∃ u, l = p ++ u := by
  induction p with
  | nil =>
    intro l
    simp [List.isPrefixOf]
  | cons a p ih =>
    intro l
    cases l with
    | nil =>
      simp [List.isPrefixOf]
    | cons b l =>
      simp only [List.isPrefixOf, Bool.and_eq_true, beq_iff_eq, ih]
      constructor
      · rintro ⟨rfl, u, rfl⟩
        exact ⟨u, rfl⟩
      · rintro ⟨u, h⟩
        cases h
        exact ⟨rfl, u, rfl⟩

theorem occurs_nil_iff (p : List Char) : occurs p [] ↔ p = [] := by
  constructor
  · rintro ⟨a, b, h⟩
    rcases List.append_eq_nil.mp h.symm with ⟨h1, h2⟩
    exact (List.append_eq_nil.mp h1).2
  · rintro rfl
    exact ⟨[], [], rfl⟩

theorem occurs_cons_iff (p : List Char) (c : Char) (rest : List Char) :
    occurs p (c :: rest) ↔ (∃ u, c :: rest = p ++ u) ∨ occurs p rest := by
  constructor
  · rintro ⟨a, b, h⟩
    cases a with
    | nil => exact Or.inl ⟨b, by simpa using h⟩
    | cons a0 a' =>
      right
      rcases List.cons_eq_cons.mp h with ⟨-, h2⟩
      exact ⟨a', b, h2⟩
  · rintro (⟨u, h⟩ | ⟨a, b, h⟩)
    · exact ⟨[], u, by simpa using h⟩
    · exact ⟨c :: a, b, by simp [h]⟩

theorem occurs_iff_hasSub (p : List Char) : ∀ s, occurs p s ↔ hasSub p s = true := by
  intro s
  induction s with
  | nil =>
    simp [hasSub, occurs_nil_iff, List.isEmpty_iff]
  | cons c rest ih =>
    simp only [hasSub, Bool.or_eq_true, occurs_cons_iff, ih, isPrefixOf_iff_exists]

instance occursDecidable (p s : List Char) : Decidable (occurs p s) :=
  decidable_of_iff _ (occurs_iff_hasSub p s).symm

/-- Join segments with a separator: the inverse view of `replaceAll`'s
scan, used to state all-occurrence replacement. -/
def joinWith (sep : List Char) : List (List Char) → List Char
  | [] => []
  | [x] => x
  | x :: y :: rest => x ++ sep ++ joinWith sep (y :: rest)

theorem joinWith_cons_of_ne_nil (sep x : List Char) {segs : List (List Char)}
    (h : segs ≠ []) : joinWith sep (x :: segs) = x ++ sep ++ joinWith sep segs := by
  cases segs with
  | nil => exact absurd rfl h
  | cons y rest => rfl

/-- The first segment is always a prefix of the joined list. -/
theorem joinWith_head_append (sep x : List Char) (segs : List (List Char)) :
    ∃ q, joinWith sep (x :: segs) = x ++ q := by
  cases segs with
  | nil => exact ⟨[], by simp [joinWith]⟩
  | cons y rest => exact ⟨sep ++ joinWith sep (y :: rest), by simp [joinWith]⟩

/-- `replaceAll p t` replaces every (leftmost, non-overlapping) occurrence
of `p` by `t`: the input splits into `p`-free segments separated by `p`,
and the output is the same segments separated by `t`. -/
theorem replaceAll_segments (p t : List Char) (hp : p ≠ []) :
    ∀ s : List Char, ∃ segs : List (List Char), segs ≠ [] ∧
      s = joinWith p segs ∧ replaceAll p t s = joinWith t segs ∧
      ∀ seg ∈ segs, ¬ occurs p seg := by
  suffices H : ∀ n (s : List Char), s.length ≤ n → ∃ segs : List (List Char), segs ≠ [] ∧
      s = joinWith p segs ∧ replaceAll p t s = joinWith t segs ∧
      ∀ seg ∈ segs, ¬ occurs p seg by
    exact fun s => H s.length s le_rfl
  intro n
  induction n with
  | zero =>
    intro s hs
    have hz : s = [] := List.length_eq_zero.mp (Nat.le_zero.mp hs)
    subst hz
    refine ⟨[[]], by simp, rfl, by simp [replaceAll, joinWith], ?_⟩
    intro seg hseg
    rcases List.mem_singleton.mp hseg with rfl
    simp [occurs_nil_iff, hp]
  | succ n ih =>
    intro s hs
    cases s with
    | nil =>
      refine ⟨[[]], by simp, rfl, by simp [replaceAll, joinWith], ?_⟩
      intro seg hseg
      rcases List.mem_singleton.mp hseg with rfl
      simp [occurs_nil_iff, hp]
    | cons c rest =>
      by_cases hpre : p.isPrefixOf (c :: rest) = true
      · -- match: consume `p`, emit `t`, continue after it
        obtain ⟨u, hu⟩ := (isPrefixOf_iff_exists p (c :: rest)).mp hpre
        have hdrop : (c :: rest).drop p.length = u := by
          rw [hu, List.drop_append_of_le_length le_rfl]
          simp
        have hlen : u.length ≤ n := by
          have h1 : (c :: rest).length = p.length + u.length := by
            rw [hu]; simp
          have h2 : 1 ≤ p.length := List.length_pos.mpr hp
          omega
        obtain ⟨segs', hne', hjoin', hrep', hfree'⟩ := ih u hlen
        refine ⟨[] :: segs', by simp, ?_, ?_, ?_⟩
        · rw [joinWith_cons_of_ne_nil p [] hne', ← hjoin', List.nil_append, hu]
        · rw [replaceAll, dif_pos ⟨hp, hpre⟩, hdrop,
            joinWith_cons_of_ne_nil t [] hne', ← hrep', List.nil_append]
        · intro seg hseg
          rcases List.mem_cons.mp hseg with rfl | hmem
          · simp [occurs_nil_iff, hp]
          · exact hfree' seg hmem
      · -- no match at this position: keep `c`, continue on `rest`
        have hlen : rest.length ≤ n := by
          have := hs; simp at this; omega
        obtain ⟨segs', hne', hjoin', hrep', hfree'⟩ := ih rest hlen
        cases segs' with
        | nil => exact absurd rfl hne'
        | cons h0 tl =>
          refine ⟨(c :: h0) :: tl, by simp, ?_, ?_, ?_⟩
          · cases tl with
            | nil =>
              simp only [joinWith] at hjoin' ⊢
              rw [hjoin']
            | cons y rest' =>
              rw [joinWith_cons_of_ne_nil p (c :: h0) (by simp),
                joinWith_cons_of_ne_nil p h0 (by simp) ] at *
              simp only [List.cons_append]
              rw [← hjoin']
          · have hcond : ¬ (p ≠ [] ∧ p.isPrefixOf (c :: rest) = true) := by
              intro hc; exact hpre hc.2
            rw [replaceAll, dif_neg hcond]
            cases tl with
            | nil =>
              simp only [joinWith] at hrep' ⊢
              rw [hrep']
            | cons y rest' =>
              rw [joinWith_cons_of_ne_nil t (c :: h0) (by simp),
                joinWith_cons_of_ne_nil t h0 (by simp) ] at *
              simp only [List.cons_append]
              rw [← hrep']
          · intro seg hseg
            rcases List.mem_cons.mp hseg with rfl | hmem
            · -- the grown first segment stays `p`-free
              intro hocc
              rcases (occurs_cons_iff p c h0).mp hocc with ⟨u, hu⟩ | htail
              · -- an occurrence at the head would have matched in the scan
                obtain ⟨q, hq⟩ := joinWith_head_append p h0 tl
                apply hpre
                rw [(isPrefixOf_iff_exists p (c :: rest))]
                refine ⟨u ++ q, ?_⟩
                rw [hjoin', hq] at *
                have : c :: (h0 ++ q) = (c :: h0) ++ q := by simp
                rw [this, hu]
                simp
              · exact hfree' h0 (List.mem_cons_self h0 tl) htail
            · exact hfree' seg (List.mem_cons_of_mem _ hmem)

/-! ## URL environment model

The video modal calls the browser's `URL` / `URLSearchParams` APIs.  They
are modelled here for absolute `scheme://host...` URLs (percent-decoding
is not modelled; no input in scope contains an escape sequence).
`new URL` throwing on an unparsable input is modelled by `none`. -/

structure URL where
  scheme : List Char
  hostname : List Char
  pathname : List Char
  searchParams : List (List Char × List Char)
  hash : List Char
deriving DecidableEq

/-- Split a list on a separator character (`String.prototype.split`). -/
def splitOnChar (sep : Char) : List Char → List (List Char)
  | [] => [[]]
  | c :: rest =>
    let r := splitOnChar sep rest
    if c = sep then [] :: r
    else
      match r with
      | [] => [[c]]
      | h0 :: t => (c :: h0) :: t

/-- One `name=value` query pair (no `=` means an empty value). -/
def parseQueryPair (s : List Char) : List Char × List Char :=
  let name := s.takeWhile (fun c => c != '=')
  match s.drop name.length with
  | '=' :: v => (name, v)
  | _ => (name, [])

/-- `URLSearchParams` built from the search string (leading `?` kept, as
in `URL.search`); empty `&`-segments are skipped. -/
def parseSearch : List Char → List (List Char × List Char)
  | '?' :: body => ((splitOnChar '&' body).filter (fun x => !x.isEmpty)).map parseQueryPair
  | _ => []

/-- `new URL(s)` for absolute URLs; `none` models the constructor throwing. -/
def parseURL (s : List Char) : Option URL :=
  let scheme := s.takeWhile Char.isAlpha
  match s.drop scheme.length with
  | ':' :: '/' :: '/' :: r =>
    if scheme = [] then none
    else
      let host := r.takeWhile (fun c => c != '/' && c != '?' && c != '#')
      if host = [] then none
      else
        let r2 := r.drop host.length
        let path := r2.takeWhile (fun c => c != '?' && c != '#')
        let r3 := r2.drop path.length
        let search := r3.takeWhile (fun c => c != '#')
        some { scheme := scheme, hostname := host,
               pathname := if path = [] then ['/'] else path,
               searchParams := parseSearch search,
               hash := r3.drop search.length }
  | _ => none

/-- `searchParams.get(name)`: first pair with that name, else `null`. -/
def URL.getParam (u : URL) (name : List Char) : Option (List Char) :=
  (u.searchParams.find? (fun pr => pr.1 == name)).map (·.2)

/-- `hash.replace("#", "")`: remove the first `#` (a string pattern in
JavaScript `replace` substitutes only the first occurrence). -/
def removeFirstHash : List Char → List Char
  | [] => []
  | c :: r => if c = '#' then r else c :: removeFirstHash r

/-! ## The start-time regex

`getStart` matches `/(?:(\d+)h)?(?:(\d+)m)?(?:(\d+)s?)?$/i` against the
raw timestamp.  The regex is end-anchored only, every group is optional,
and JavaScript `exec` returns the leftmost match, so the embedding tries
each start position from the left and, per position, the alternatives in
the engine's preference order (group present before absent, `s` consumed
before skipped). -/

/-- Capture groups of the time regex (`h`, `m`, `s` digit runs). -/
abbrev TimeGroups := Option (List Char) × Option (List Char) × Option (List Char)

/-- Alternatives for `(?:(\d+)X)?` at the current position, in preference
order: a non-empty digit run followed by one of `letters`, else skip. -/
def hmCand (letters : List Char) (cs : List Char) : List (Option (List Char) × List Char) :=
  match (cs.drop (cs.takeWhile Char.isDigit).length).head? with
  | some c =>
    if cs.takeWhile Char.isDigit ≠ [] ∧ c ∈ letters then
      [(some (cs.takeWhile Char.isDigit), cs.drop ((cs.takeWhile Char.isDigit).length + 1)),
        (none, cs)]
    else [(none, cs)]
  | none => [(none, cs)]

/-- Alternatives for `(?:(\d+)s?)?` at the current position, in preference
order: digits plus `s`, digits alone, skip. -/
def sCand (cs : List Char) : List (Option (List Char) × List Char) :=
  let run := cs.takeWhile Char.isDigit
  if run = [] then [(none, cs)]
  else
    match (cs.drop run.length).head? with
    | some c =>
      if c = 's' ∨ c = 'S' then
        [(some run, cs.drop (run.length + 1)), (some run, cs.drop run.length), (none, cs)]
      else [(some run, cs.drop run.length), (none, cs)]
    | none => [(some run, cs.drop run.length), (none, cs)]

/-- Match the time regex at one fixed start position (the suffix `cs`);
the `$` anchor forces the remainder to be empty. -/
def matchTimeAt (cs : List Char) : Option TimeGroups :=
  (hmCand ['h', 'H'] cs).findSome? fun g1 =>
    (hmCand ['m', 'M'] g1.2).findSome? fun g2 =>
      (sCand g2.2).findSome? fun g3 =>
        if g3.2 = [] then some (g1.1, g2.1, g3.1) else none

/-- `regex.exec(raw)`: leftmost successful position. -/
def execTime : List Char → Option TimeGroups
  | [] => matchTimeAt []
  | c :: rest =>
    match matchTimeAt (c :: rest) with
    | some g => some g
    | none => execTime rest

/-- `m[i] || "0"` (an absent or empty capture falls back to `"0"`). -/
def groupOrZero (g : Option (List Char)) : List Char :=
  match g with
  | some d => if d = [] then ['0'] else d
  | none => ['0']

/-- The raw timestamp `getStart` works on:
`u.searchParams.get("t") || u.searchParams.get("start") ||
u.hash.replace("#", "")`. -/
def rawTime (u : URL) : List Char :=
  jsOrStr (jsOrOpt (u.getParam ['t']) (u.getParam ['s', 't', 'a', 'r', 't']))
    (removeFirstHash u.hash)

/-- `getStart` from `script.js`: parse `?t=`, `&start=` or the hash
(`#1m20s`), accepting raw seconds or `h`/`m`/`s` notation.  The final
`isNaN` fallback branch is kept although the regex always matches. -/
def getStart (u : URL) : Option Int :=
  if rawTime u = [] then some 0
  else
    match execTime (rawTime u) with
    | some (g1, g2, g3) =>
      jsAdd (jsAdd (jsMul (parseIntJS (groupOrZero g1)) 3600)
          (jsMul (parseIntJS (groupOrZero g2)) 60))
        (jsOrNum (jsOrNum (parseIntJS (groupOrZero g3)) (parseIntJS (rawTime u))) (some 0))
    | none =>
      match parseIntJS (rawTime u) with
      | none => some 0
      | some n => some n

/-! ## The video-reference parser -/

/-- A parsed video reference (`{id, start}` in `parseVideo`). -/
structure Video where
  id : List Char
  start : Option Int
deriving DecidableEq

/-- A character of the `\w` class or `-`. -/
def isIdChar (c : Char) : Bool :=
  c.isAlpha || c.isDigit || c == '_' || c == '-'

/-- The `/^[\w-]{10,12}$/` test. -/
def isVideoId (s : List Char) : Bool :=
  10 ≤ s.length && s.length ≤ 12 && s.all isIdChar

/-- `.toLowerCase()` on a hostname (ASCII suffices here). -/
def lowerAscii (s : List Char) : List Char := s.map Char.toLower

/-- `.replace(/^www\./, "")`. -/
def stripWWW (h : List Char) : List Char :=
  if ['w', 'w', 'w', '.'].isPrefixOf h then h.drop 4 else h

/-- `.split(/[/?#]/)[0]`. -/
def firstSegment (s : List Char) : List Char :=
  s.takeWhile (fun c => c != '/' && c != '?' && c != '#')

/-- `parseVideo` from `script.js`: accept a bare ID, a `youtu.be` share
URL, a `/shorts/` URL, or a watch URL with `?v=`; `null` otherwise (a
throwing `new URL` is caught and also yields `null`). -/
def parseVideo (input : List Char) : Option Video :=
  if isVideoId input then some ⟨input, some 0⟩
  else
    match parseURL input with
    | none => none
    | some u =>
      let start := getStart u
      let host := stripWWW (lowerAscii u.hostname)
      if host = ['y', 'o', 'u', 't', 'u', '.', 'b', 'e'] then
        some ⟨firstSegment (u.pathname.dropWhile (· = '/')), start⟩
      else if ['/', 's', 'h', 'o', 'r', 't', 's', '/'].isPrefixOf u.pathname then
        some ⟨firstSegment (u.pathname.drop 8), start⟩
      else
        match u.getParam ['v'] with
        | some v => if v ≠ [] then some ⟨v, start⟩ else none
        | none => none

/-- The `open` routine's choice of iframe source: the embed URL built from
a successful parse, or the raw input as fallback.  The embed-URL builder
is abstracted as a parameter, since the claims do not constrain it. -/
def openSrc (embed : List Char → Option Int → List Char) (input : List Char) : List Char :=
  match parseVideo input with
  | none => input
  | some v => embed v.id v.start

/-! ## The include loader -/

/-- The id that enables token replacement (`el.id === "blog-header"`). -/
def blogHeaderId : List Char := "blog-header".toList

/-- The literal token `{{title}}` (braces escaped). -/
def titleTok : List Char := "\x7b\x7btitle\x7d\x7d".toList

/-- The literal token `{{subtitle}}` (braces escaped). -/
def subtitleTok : List Char := "\x7b\x7bsubtitle\x7d\x7d".toList

/-- Built-in default for `{{title}}`. -/
def defaultTitle : List Char := "Projects, Pivots & Pawprints".toList

/-- Built-in default for `{{subtitle}}`. -/
def defaultSubtitle : List Char := "Notes on projects, learning, and dogs.".toList

/-- A `[data-include]` placeholder element. -/
structure Placeholder where
  id : List Char
  dataInclude : List Char
  dataTitle : Option (List Char)
  dataSubtitle : Option (List Char)
  initialContent : List Char
deriving DecidableEq

/-- The blog-header token replacement: `{{title}}` first, then
`{{subtitle}}`, each via `replaceAll`, with `dataset` values falling back
to the built-in defaults under `||`. -/
def substituteTokens (el : Placeholder) (html : List Char) : List Char :=
  replaceAll subtitleTok (jsOrStr el.dataSubtitle defaultSubtitle)
    (replaceAll titleTok (jsOrStr el.dataTitle defaultTitle) html)

/-- Settlement of one placeholder's `fetch` promise. -/
inductive FetchResult where
  | success (html : List Char)
  | failure
deriving DecidableEq

/-- Observable per-placeholder state after its async body has run. -/
structure PState where
  content : List Char
  isLoading : Bool
  isReady : Bool
  loggedError : Bool
deriving DecidableEq

/-- One placeholder's `try`/`catch`/`finally` body: on success substitute
(for the blog header) and inject; on failure log and keep the original
content; either way the `finally` block swaps `is-loading` for
`is-ready`. -/
def processOne (el : Placeholder) (fr : FetchResult) : PState :=
  match fr with
  | .success html =>
    { content := if el.id = blogHeaderId then substituteTokens el html else html,
      isLoading := false, isReady := true, loggedError := false }
  | .failure =>
    { content := el.initialContent,
      isLoading := false, isReady := true, loggedError := true }

/-- All placeholders are processed independently (one mapped async body
each, joined by `Promise.all`). -/
def processAll (inputs : List (Placeholder × FetchResult)) : List PState :=
  inputs.map fun pf => processOne pf.1 pf.2

/-- Document-level events observable during the include run. -/
inductive Event where
  | ready (id : List Char)
  | includesReady
deriving DecidableEq

/-- The loader's event trace: `Promise.all` resolves only after every
placeholder's `finally` has marked it ready (in whatever order the
fetches settled), and only then is `includes:ready` dispatched. -/
def loaderTrace (order : List (Placeholder × FetchResult)) : List Event :=
  (order.map fun pf => Event.ready pf.1.id) ++ [Event.includesReady]

/-! ## Script re-activation inside injected fragments -/

/-- A `<script>` element; `live = false` models an inert element produced
by `innerHTML` assignment. -/
structure ScriptEl where
  attrs : List (List Char × List Char)
  textContent : Option (List Char)
  live : Bool
deriving DecidableEq

/-- `Element.setAttribute`: overwrite an existing attribute of that name,
else append it. -/
def setAttributeJS (attrs : List (List Char × List Char)) (n v : List Char) :
    List (List Char × List Char) :=
  if attrs.any (fun a => a.1 == n) then
    attrs.map fun a => if a.1 == n then (n, v) else a
  else attrs ++ [(n, v)]

/-- The loop body at `script.js:547-551`: create a fresh script, copy each
attribute via `setAttribute`, copy the inline text (`textContent || ""`),
and `replaceWith` swaps it in (so the fresh one executes). -/
def reactivateScript (old : ScriptEl) : ScriptEl :=
  { attrs := old.attrs.foldl (fun acc a => setAttributeJS acc a.1 a.2) [],
    textContent := some (old.textContent.getD []),
    live := true }

/-- `el.querySelectorAll("script").forEach(...)` over a fragment's
scripts, each replaced in place. -/
def reactivateScripts (olds : List ScriptEl) : List ScriptEl :=
  olds.map reactivateScript

/-! ## The two footer-year code paths -/

/-- An element as far as the year stamping is concerned. -/
structure YearEl where
  textContent : List Char
deriving DecidableEq

/-- `script.js:334-339`: the `DOMContentLoaded` year handler for a `#year`
element already in the document. -/
def setYearFooter (year : List Char) (y : Option YearEl) : Option YearEl :=
  match y with
  | none => none
  | some el => if trimJS el.textContent = [] then some ⟨year⟩ else some el

/-- `script.js:554-556`: the include loader's year branch for a `#year`
element arriving inside a fragment. -/
def setYearInclude (year : List Char) (y : Option YearEl) : Option YearEl :=
  match y with
  | none => none
  | some el => if trimJS el.textContent = [] then some ⟨year⟩ else some el

/-! ## Idempotent binding guards -/

/-- Listener bookkeeping for the mobile-nav IIFE (four delegated click
handlers, one keydown, one scroll, one once-`includes:ready`). -/
structure NavBindState where
  navBound : Bool
  clickListeners : Nat
  keydownListeners : Nat
  scrollListeners : Nat
  includesReadyListeners : Nat
deriving DecidableEq

/-- The mobile-nav IIFE guarded by `window.__navBound`. -/
def navIIFE (s : NavBindState) : NavBindState :=
  if s.navBound then s
  else
    { navBound := true,
      clickListeners := s.clickListeners + 4,
      keydownListeners := s.keydownListeners + 1,
      scrollListeners := s.scrollListeners + 1,
      includesReadyListeners := s.includesReadyListeners + 1 }

/-- The deck bootstrap state: the `__deckInited` weak set and the multiset
of elements that received a listener set (element identity as `Nat`). -/
structure DeckScanState where
  inited : List Nat
  bound : List Nat
deriving DecidableEq

/-- `initAnyDecks`: scan the current `[data-deck-carousel]` elements and
initialise each one not yet in `__deckInited`. -/
def initAnyDecks (els : List Nat) (s : DeckScanState) : DeckScanState :=
  els.foldl
    (fun st el =>
      if el ∈ st.inited then st
      else { inited := el :: st.inited, bound := el :: st.bound })
    s

/-- The subscribe form's bookkeeping (`form.__mlBound`). -/
structure MlFormState where
  mlBound : Bool
  submitListeners : Nat
deriving DecidableEq

/-- `wireUp` from the subscribe-form script: `false` when the component or
its form is missing, and bind-exactly-once otherwise. -/
def wireUp (hasRoot hasForm : Bool) (s : MlFormState) : Bool × MlFormState :=
  if !hasRoot then (false, s)
  else if !hasForm then (false, s)
  else if s.mlBound then (true, s)
  else (true, { mlBound := true, submitListeners := s.submitListeners + 1 })

/-! ## Feature initialisation under missing markup -/

/-- What an initialisation run did. -/
inductive InitResult where
  | noop
  | bound
deriving DecidableEq

/-- The video-modal `DOMContentLoaded` handler: `if (!modal || !iframe)
return;`. -/
def videoModalInit (modal iframe : Bool) : Except (List Char) InitResult :=
  if !modal || !iframe then .ok .noop else .ok .bound

/-- Presence of the mobile-nav elements (`getEls`). -/
structure NavDom where
  btn : Bool
  menu : Bool
  backdrop : Bool
deriving DecidableEq

/-- The nav UI state touched by `openMenu`/`closeMenu`. -/
structure NavUI where
  expanded : Bool
  menuHidden : Bool
  backdropHidden : Bool
  pageLocked : Bool
deriving DecidableEq

/-- `openMenu`: no-op without button or menu; the backdrop is optional
(`backdrop?.classList`). -/
def openMenu (d : NavDom) (ui : NavUI) : Except (List Char) NavUI :=
  if !d.btn || !d.menu then .ok ui
  else .ok { expanded := true, menuHidden := false,
             backdropHidden := if d.backdrop then false else ui.backdropHidden,
             pageLocked := true }

/-- `closeMenu`, symmetric to `openMenu`. -/
def closeMenu (d : NavDom) (ui : NavUI) : Except (List Char) NavUI :=
  if !d.btn || !d.menu then .ok ui
  else .ok { expanded := false, menuHidden := true,
             backdropHidden := if d.backdrop then true else ui.backdropHidden,
             pageLocked := false }

/-- The contact-form handler: `if (!form) return;`. -/
def contactFormInit (hasForm : Bool) : Except (List Char) InitResult :=
  if !hasForm then .ok .noop else .ok .bound

/-- Presence of the deck carousel's sub-elements. -/
structure DeckDom where
  track : Bool
  numCards : Nat
  prevBtn : Bool
  nextBtn : Bool
  lb : Bool
  lbImg : Bool
  lbCaption : Bool
  lbClose : Bool
  lbPrev : Bool
  lbNext : Bool
deriving DecidableEq

/-- The `TypeError` raised by calling `addEventListener` on `null`. -/
def deckTypeError (sel : List Char) : List Char :=
  "TypeError: addEventListener of null ".toList ++ sel

/-- `initDeckCarousel`: returns early without a track or cards; per-card
buttons and the deck arrows are null-guarded; but the lightbox controls
are dereferenced unguarded (`lbClose.addEventListener` first, then
`lbPrev`, `lbNext`, and `lb` itself), in source order. -/
def initDeckCarousel (d : DeckDom) : Except (List Char) InitResult :=
  if !d.track || d.numCards == 0 then .ok .noop
  else if !d.lbClose then .error (deckTypeError ".deck-lightbox__close".toList)
  else if !d.lbPrev then .error (deckTypeError ".deck-lightbox__prev".toList)
  else if !d.lbNext then .error (deckTypeError ".deck-lightbox__next".toList)
  else if !d.lb then .error (deckTypeError ".deck-lightbox".toList)
  else .ok .bound

/-! ## The contact-form submit handler -/

/-- The form fields the handler reads (`form.name?.value` etc.; `none`
models a missing input element, and the `#website` honeypot value is
present only when that input exists). -/
structure ContactDom where
  hasSubmitBtn : Bool
  honeypot : Option (List Char)
  nameField : Option (List Char)
  emailField : Option (List Char)
  subjectField : Option (List Char)
  messageField : Option (List Char)
deriving DecidableEq

/-- The JSON payload posted to `/api/contact`. -/
structure ContactPayload where
  name : List Char
  email : List Char
  subject : List Char
  message : List Char
deriving DecidableEq

/-- Settlement of the contact `fetch`: 2xx, an HTTP error (with an
optional parsed JSON body `(code, message)` or a text fallback), an
abort, or a network error. -/
inductive NetOutcome where
  | ok
  | httpErr (jsonBody : Option (Option (List Char) × Option (List Char))) (text : List Char)
  | abortErr
  | netErr
deriving DecidableEq

/-- Everything the submit handler does that the page can observe. -/
structure SubmitResult where
  statusMsg : Option (List Char × Bool)
  didReset : Bool
  validationRun : Bool
  request : Option ContactPayload
deriving DecidableEq

/-- `/^[^\s@]+@[^\s@]+\.[^\s@]+$/`: one `@`, a non-empty whitespace-free
local part, and a domain containing an interior dot. -/
def emailOk (e : List Char) : Bool :=
  let lp := e.takeWhile fun c => !isJsSpace c && c != '@'
  match e.drop lp.length with
  | '@' :: rest =>
    !lp.isEmpty && !rest.isEmpty
      && rest.all (fun c => !isJsSpace c && c != '@')
      && (rest.drop 1).dropLast.contains '.'
  | _ => false

/-- `"✅ Thanks! Your message was sent."` -/
def successMsg : List Char := "✅ Thanks! Your message was sent.".toList

/-- `"❌ Please fill in all fields."` -/
def fillMsg : List Char := "❌ Please fill in all fields.".toList

/-- `"❌ Please enter a valid email address."` -/
def invalidEmailMsg : List Char := "❌ Please enter a valid email address.".toList

/-- `"❌ Request timed out. Please try again."` -/
def timeoutMsg : List Char := "❌ Request timed out. Please try again.".toList

/-- `"❌ Network error. Please try again."` -/
def networkMsg : List Char := "❌ Network error. Please try again.".toList

/-- `"❌ Sorry—something went wrong."` -/
def baseErrMsg : List Char := "❌ Sorry—something went wrong.".toList

/-- JavaScript truthiness of an optional string field. -/
def falsyStr (o : Option (List Char)) : Bool :=
  match o with
  | none => true
  | some s => s.isEmpty

/-- The server-error detail mapping (`data?.code` cases, then
`data?.message`, then the first 200 characters of the text body). -/
def errDetail (jsonBody : Option (Option (List Char) × Option (List Char)))
    (text : List Char) : List Char :=
  match jsonBody with
  | some (code, msg) =>
    if code = some "invalid_email".toList then
      "Invalid email. Please double-check it.".toList
    else if code = some "validation_failed".toList then
      "Please correct the highlighted fields.".toList
    else if code = some "smtp_error".toList ∨ code = some "smtp_unavailable".toList
        ∨ code = some "smtp_auth_failed".toList then
      "Email service temporarily unavailable. Please try again later.".toList
    else
      match msg with
      | some m => m
      | none => []
  | none => text.take 200

/-- The submit handler of the contact form (`script.js:187-276`),
from the double-click guard to the status message of each outcome. -/
def handleSubmit (busy : Bool) (dom : ContactDom) (net : NetOutcome) : SubmitResult :=
  if busy || !dom.hasSubmitBtn then ⟨none, false, false, none⟩
  else
    let hpHit :=
      match dom.honeypot with
      | some v => !(trimJS v).isEmpty
      | none => false
    if hpHit then ⟨some (successMsg, true), true, false, none⟩
    else
      let name := dom.nameField.map trimJS
      let email := dom.emailField.map trimJS
      let subject := dom.subjectField.map trimJS
      let message := dom.messageField.map trimJS
      if falsyStr name || falsyStr email || falsyStr subject || falsyStr message then
        ⟨some (fillMsg, false), false, true, none⟩
      else
        let p : ContactPayload :=
          ⟨name.getD [], email.getD [], subject.getD [], message.getD []⟩
        if !emailOk p.email then ⟨some (invalidEmailMsg, false), false, true, none⟩
        else
          match net with
          | .ok => ⟨some (successMsg, true), true, true, some p⟩
          | .httpErr jsonBody text =>
            let detail := errDetail jsonBody text
            ⟨some (baseErrMsg ++ (if detail = [] then [] else ' ' :: detail), false),
              false, true, some p⟩
          | .abortErr => ⟨some (timeoutMsg, false), false, true, some p⟩
          | .netErr => ⟨some (networkMsg, false), false, true, some p⟩

/-! ## Helper lemmas -/

theorem findSomeExtract {α β : Type} (f : α → Option β) :
    ∀ (l : List α) (b : β), l.findSome? f = some b → ∃ a ∈ l, f a = some b := by
  intro l
  induction l with
  | nil => intro b h; simp [List.findSome?] at h
  | cons a l ih =>
    intro b h
    rw [List.findSome?] at h
    rcases hfa : f a with _ | b'
    · rw [hfa] at h
      rcases ih b h with ⟨x, hx, hfx⟩
      exact ⟨x, List.mem_cons_of_mem _ hx, hfx⟩
    · rw [hfa] at h
      cases h
      exact ⟨a, List.mem_cons_self _ _, hfa⟩

theorem getLastConcat {α : Type} (x : α) :
    ∀ l : List α, (l ++ [x]).getLast? = some x := by
  intro l
  induction l with
  | nil => rfl
  | cons a l ih =>
    rw [List.cons_append, List.getLast?_cons, ih]
    cases l <;> rfl

theorem takeWhileEqOfAll {p : Char → Bool} :
    ∀ l : List Char, l.all p = true → l.takeWhile p = l := by
  intro l
  induction l with
  | nil => intro _; rfl
  | cons c r ih =>
    intro h
    have hc : p c = true := by
      have := List.all_eq_true.mp h c (List.mem_cons_self _ _); simpa using this
    have hr : r.all p = true := by
      rw [List.all_eq_true]
      intro x hx
      exact List.all_eq_true.mp h x (List.mem_cons_of_mem _ hx)
    rw [List.takeWhile_cons, hc, ih hr, if_pos rfl]

theorem trimJSEqNilIff (s : List Char) :
    trimJS s = [] ↔ ∀ c ∈ s, isJsSpace c = true := by
  unfold trimJS
  rw [List.reverse_eq_nil_iff, List.dropWhile_eq_nil_iff]
  constructor
  · intro h c hc
    have hsplit := List.takeWhile_append_dropWhile (p := isJsSpace) (l := s)
    rcases List.mem_append.mp (by rw [hsplit]; exact hc) with h1 | h2
    · exact List.mem_takeWhile_imp h1
    · exact h c (List.mem_reverse.mpr h2)
  · intro h c hc
    exact h c ((List.dropWhile_sublist (l := s) (p := isJsSpace)).subset (List.mem_reverse.mp hc))

/-! ## C1 — the completion signal -/

/-- C1: whatever order the fragment fetches settle in (any permutation of
the page's placeholders), `includes:ready` appears in the loader's event
trace exactly once, strictly after every placeholder's own ready mark. -/
theorem c1_completion_signal (page order : List (Placeholder × FetchResult))
    (hperm : order.Perm page) :
    (loaderTrace order).count Event.includesReady = 1 ∧
    ∃ pre, loaderTrace order = pre ++ [Event.includesReady] ∧
      Event.includesReady ∉ pre ∧
      ∀ pf ∈ page, Event.ready pf.1.id ∈ pre := by
  have hnotin : Event.includesReady ∉ order.map fun pf => Event.ready pf.1.id := by
    intro hmem
    rcases List.mem_map.mp hmem with ⟨pf, -, habs⟩
    exact Event.noConfusion habs
  constructor
  · unfold loaderTrace
    rw [List.count_append, List.count_eq_zero.mpr hnotin]
    rfl
  · refine ⟨order.map fun pf => Event.ready pf.1.id, ?_, hnotin, ?_⟩
    · simp only [loaderTrace]
    · intro pf hpf
      exact List.mem_map_of_mem _ (hperm.symm.subset hpf)

/-- C1 witness: a two-placeholder page whose fetches settle in reversed
order still produces a single final `includes:ready`. -/
theorem c1_completion_signal_witness :
    (loaderTrace [((⟨"b".toList, "/b.html".toList, none, none, []⟩ : Placeholder),
        FetchResult.failure),
        ((⟨"a".toList, "/a.html".toList, none, none, []⟩ : Placeholder),
        FetchResult.success [])]).count Event.includesReady = 1 :=
  (c1_completion_signal
    [((⟨"a".toList, "/a.html".toList, none, none, []⟩ : Placeholder), FetchResult.success []),
      ((⟨"b".toList, "/b.html".toList, none, none, []⟩ : Placeholder), FetchResult.failure)]
    [((⟨"b".toList, "/b.html".toList, none, none, []⟩ : Placeholder), FetchResult.failure),
      ((⟨"a".toList, "/a.html".toList, none, none, []⟩ : Placeholder), FetchResult.success [])]
    (List.Perm.swap _ _ _)).1

/-! ## C2 — failure isolation -/

/-- C2: each placeholder's outcome depends only on its own input; a failed
fetch still ends in the ready state (with the error logged and the
original content kept), a successful sibling still injects its fetched
content, and the trace still ends with the completion signal. -/
theorem c2_failure_isolation
    (inputs : List (Placeholder × FetchResult)) (k : Nat) (hk : k < inputs.length) :
    (processAll inputs).get ⟨k, by simpa [processAll] using hk⟩
      = processOne (inputs.get ⟨k, hk⟩).1 (inputs.get ⟨k, hk⟩).2 ∧
    (∀ el : Placeholder, (processOne el .failure).isReady = true ∧
      (processOne el .failure).isLoading = false ∧
      (processOne el .failure).loggedError = true ∧
      (processOne el .failure).content = el.initialContent) ∧
    (∀ (el : Placeholder) (html : List Char),
      (processOne el (.success html)).isReady = true ∧
      (processOne el (.success html)).isLoading = false ∧
      (processOne el (.success html)).content
        = (if el.id = blogHeaderId then substituteTokens el html else html)) ∧
    (loaderTrace inputs).getLast? = some Event.includesReady := by
  refine ⟨?_, ?_, ?_, ?_⟩
  · simp [processAll]
  · intro el; exact ⟨rfl, rfl, rfl, rfl⟩
  · intro el html; exact ⟨rfl, rfl, rfl⟩
  · exact getLastConcat _ _

/-- C2 witness: a 404 placeholder next to a successful one still ends
ready, by the isolation theorem. -/
theorem c2_failure_isolation_witness :
    (processOne (⟨"x".toList, "/x.html".toList, none, none, "old".toList⟩ : Placeholder)
      FetchResult.failure).isReady = true :=
  (((c2_failure_isolation
      [((⟨"x".toList, "/x.html".toList, none, none, "old".toList⟩ : Placeholder),
        FetchResult.failure),
        ((⟨"y".toList, "/y.html".toList, none, none, []⟩ : Placeholder),
        FetchResult.success "new".toList)]
      0 (by simp)).2).1 _).1

/-! ## C4 — bind-once guards -/

theorem initAnyDecksInitedMono (el : Nat) :
    ∀ (els : List Nat) (s : DeckScanState),
      el ∈ s.inited → el ∈ (initAnyDecks els s).inited := by
  intro els
  induction els with
  | nil => intro s h; exact h
  | cons e els ih =>
    intro s h
    rw [initAnyDecks, List.foldl_cons]
    by_cases he : e ∈ s.inited
    · rw [if_pos he]
      exact ih s h
    · rw [if_neg he]
      exact ih _ (List.mem_cons_of_mem _ h)

theorem initAnyDecksCovers (el : Nat) :
    ∀ (els : List Nat) (s : DeckScanState),
      el ∈ els → el ∈ (initAnyDecks els s).inited := by
  intro els
  induction els with
  | nil => intro s h; exact absurd h (List.not_mem_nil el)
  | cons e els ih =>
    intro s h
    rw [initAnyDecks, List.foldl_cons]
    rcases List.mem_cons.mp h with rfl | hmem
    · by_cases he : el ∈ s.inited
      · rw [if_pos he]
        exact initAnyDecksInitedMono el els s he
      · rw [if_neg he]
        exact initAnyDecksInitedMono el els _ (List.mem_cons_self _ _)
    · by_cases he : e ∈ s.inited
      · rw [if_pos he]; exact ih s hmem
      · rw [if_neg he]; exact ih _ hmem

theorem initAnyDecksNoop :
    ∀ (els : List Nat) (s : DeckScanState),
      (∀ el ∈ els, el ∈ s.inited) → initAnyDecks els s = s := by
  intro els
  induction els with
  | nil => intro s _; rfl
  | cons e els ih =>
    intro s h
    rw [initAnyDecks, List.foldl_cons, if_pos (h e (List.mem_cons_self _ _))]
    exact ih s fun el hel => h el (List.mem_cons_of_mem _ hel)

theorem initAnyDecksCount (el : Nat) :
    ∀ (els : List Nat) (s : DeckScanState),
      (initAnyDecks els s).bound.count el
        ≤ s.bound.count el + (if el ∈ s.inited then 0 else 1) := by
  intro els
  induction els with
  | nil =>
    intro s
    exact Nat.le_add_right _ _
  | cons e els ih =>
    intro s
    simp only [initAnyDecks, List.foldl_cons]
    by_cases he : e ∈ s.inited
    · rw [if_pos he]; exact ih s
    · rw [if_neg he]
      by_cases hel : el = e
      · subst hel
        have h1 := ih ⟨el :: s.inited, el :: s.bound⟩
        rw [if_pos (List.mem_cons_self _ _)] at h1
        rw [if_neg he]
        calc (initAnyDecks els ⟨el :: s.inited, el :: s.bound⟩).bound.count el
            ≤ (el :: s.bound).count el + 0 := h1
          _ = s.bound.count el + 1 := by rw [List.count_cons_self]
      · have h1 := ih ⟨e :: s.inited, e :: s.bound⟩
        by_cases hin : el ∈ s.inited
        · rw [if_pos (show el ∈ (⟨e :: s.inited, e :: s.bound⟩ : DeckScanState).inited from
            List.mem_cons_of_mem _ hin)] at h1
          rw [if_pos hin]
          calc (initAnyDecks els ⟨e :: s.inited, e :: s.bound⟩).bound.count el
              ≤ (e :: s.bound).count el + 0 := h1
            _ = s.bound.count el + 0 := by rw [List.count_cons_of_ne hel]
        · rw [if_neg (show el ∉ (⟨e :: s.inited, e :: s.bound⟩ : DeckScanState).inited from
            fun hc => (List.mem_cons.mp hc).elim hel hin)] at h1
          rw [if_neg hin]
          calc (initAnyDecks els ⟨e :: s.inited, e :: s.bound⟩).bound.count el
              ≤ (e :: s.bound).count el + 1 := h1
            _ = s.bound.count el + 1 := by rw [List.count_cons_of_ne hel]

/-- C4: all three binding guards are idempotent — re-running the mobile-nav
IIFE, the deck scan, or the subscribe-form wiring on an already-bound
target changes nothing, and one deck element never accumulates a second
listener set in any run. -/
theorem c4_bind_once_guards :
    (∀ s : NavBindState, navIIFE (navIIFE s) = navIIFE s) ∧
    (∀ (els : List Nat) (s : DeckScanState),
      initAnyDecks els (initAnyDecks els s) = initAnyDecks els s) ∧
    (∀ (els : List Nat) (s : DeckScanState) (el : Nat),
      (initAnyDecks els s).bound.count el ≤ s.bound.count el + 1) ∧
    (∀ (hasRoot hasForm : Bool) (s : MlFormState),
      (wireUp hasRoot hasForm (wireUp hasRoot hasForm s).2).2
        = (wireUp hasRoot hasForm s).2 ∧
      (wireUp hasRoot hasForm s).2.submitListeners ≤ s.submitListeners + 1) := by
  refine ⟨?_, ?_, ?_, ?_⟩
  · intro s
    by_cases h : s.navBound <;> simp [navIIFE, h]
  · intro els s
    exact initAnyDecksNoop els _ fun el hel => initAnyDecksCovers el els s hel
  · intro els s el
    calc (initAnyDecks els s).bound.count el
        ≤ s.bound.count el + (if el ∈ s.inited then 0 else 1) := initAnyDecksCount el els s
      _ ≤ s.bound.count el + 1 := by split <;> omega
  · intro hasRoot hasForm s
    cases hasRoot <;> cases hasForm <;> by_cases h : s.mlBound <;>
      simp [wireUp, h]

/-! ## C6 — video-reference parsing -/

/-- C6: the four literal inputs of the spec parse exactly as claimed, and
the unparsable one makes `open` fall back to the raw input as the iframe
source. -/
theorem c6_video_reference_parsing :
    parseVideo "dQw4w9WgXcQ".toList = some ⟨"dQw4w9WgXcQ".toList, some 0⟩ ∧
    parseVideo "https://youtu.be/dQw4w9WgXcQ?t=90".toList
      = some ⟨"dQw4w9WgXcQ".toList, some 90⟩ ∧
    parseVideo "https://www.youtube.com/watch?v=dQw4w9WgXcQ#1m5s".toList
      = some ⟨"dQw4w9WgXcQ".toList, some 65⟩ ∧
    parseVideo "https://example.com/not-a-video".toList = none ∧
    ∀ embed, openSrc embed "https://example.com/not-a-video".toList
      = "https://example.com/not-a-video".toList := by
  refine ⟨by decide, by decide, by decide, by decide, ?_⟩
  intro embed
  unfold openSrc
  rw [show parseVideo "https://example.com/not-a-video".toList = none from by decide]

/-! ## C8 — the two year-stamping paths -/

/-- C8: the original-document path and the include-loader path stamp the
footer year identically — a blank (empty or whitespace-only) `#year`
element receives the year, any other is left alone. -/
theorem c8_year_paths_equivalent :
    (∀ (year : List Char) (y : Option YearEl),
      setYearFooter year y = setYearInclude year y) ∧
    (∀ (year : List Char) (el : YearEl),
      (∀ c ∈ el.textContent, isJsSpace c = true) →
      setYearFooter year (some el) = some ⟨year⟩ ∧
      setYearInclude year (some el) = some ⟨year⟩) ∧
    (∀ (year : List Char) (el : YearEl),
      ¬(∀ c ∈ el.textContent, isJsSpace c = true) →
      setYearFooter year (some el) = some el ∧
      setYearInclude year (some el) = some el) := by
  refine ⟨?_, ?_, ?_⟩
  · intro year y
    cases y <;> rfl
  · intro year el h
    have ht : trimJS el.textContent = [] := (trimJSEqNilIff _).mpr h
    constructor <;> simp [setYearFooter, setYearInclude, ht]
  · intro year el h
    have ht : trimJS el.textContent ≠ [] := fun hc => h ((trimJSEqNilIff _).mp hc)
    constructor <;> simp [setYearFooter, setYearInclude, ht]

/-- C8 witness: a whitespace-only year element is stamped, on a concrete
input, through the shared theorem. -/
theorem c8_year_paths_equivalent_witness :
    setYearFooter "2025".toList (some ⟨"  ".toList⟩) = some ⟨"2025".toList⟩ ∧
    setYearInclude "2025".toList (some ⟨"  ".toList⟩) = some ⟨"2025".toList⟩ :=
  (c8_year_paths_equivalent.2.1) "2025".toList ⟨"  ".toList⟩ (by decide)

/-! ## C3 — token substitution -/

/-- C3 counterexample: a placeholder whose id is not `blog-header`, with a
declared title value and a fragment containing `{{title}}`, is injected
verbatim — no substitution happens and the raw token text remains. -/
theorem c3_counterexample_non_blog_header :
    (processOne (⟨"sidebar".toList, "/sidebar.html".toList, some "My Title".toList,
        none, []⟩ : Placeholder)
        (.success "<h1>\x7b\x7btitle\x7d\x7d</h1>".toList)).content
      = "<h1>\x7b\x7btitle\x7d\x7d</h1>".toList ∧
    occurs titleTok
      (processOne (⟨"sidebar".toList, "/sidebar.html".toList, some "My Title".toList,
        none, []⟩ : Placeholder)
        (.success "<h1>\x7b\x7btitle\x7d\x7d</h1>".toList)).content := by
  exact ⟨by decide, by decide⟩

/-- C3 (amended): only for the placeholder with id `blog-header`, the
loader substitutes the declared data values (or the built-in defaults)
for `{{title}}` and then `{{subtitle}}` before injection, and each pass
replaces every occurrence of its token present in its input: the input of
each pass splits into token-free segments joined by the token, and the
pass's output is those segments joined by the substituted value. -/
theorem c3_token_substitution_amended (el : Placeholder) (frag : List Char)
    (hid : el.id = blogHeaderId) :
    (processOne el (.success frag)).content
      = replaceAll subtitleTok (jsOrStr el.dataSubtitle defaultSubtitle)
          (replaceAll titleTok (jsOrStr el.dataTitle defaultTitle) frag) ∧
    (∃ segs, segs ≠ [] ∧ frag = joinWith titleTok segs ∧
      replaceAll titleTok (jsOrStr el.dataTitle defaultTitle) frag
        = joinWith (jsOrStr el.dataTitle defaultTitle) segs ∧
      ∀ seg ∈ segs, ¬ occurs titleTok seg) ∧
    (∃ segs, segs ≠ [] ∧
      replaceAll titleTok (jsOrStr el.dataTitle defaultTitle) frag
        = joinWith subtitleTok segs ∧
      (processOne el (.success frag)).content
        = joinWith (jsOrStr el.dataSubtitle defaultSubtitle) segs ∧
      ∀ seg ∈ segs, ¬ occurs subtitleTok seg) := by
  have h1 : (processOne el (.success frag)).content = substituteTokens el frag := by
    simp [processOne, hid]
  refine ⟨by rw [h1]; rfl, ?_, ?_⟩
  · rcases replaceAll_segments titleTok (jsOrStr el.dataTitle defaultTitle)
      (by decide) frag with ⟨segs, hne, hin, hout, hfree⟩
    exact ⟨segs, hne, hin, hout, hfree⟩
  · rcases replaceAll_segments subtitleTok (jsOrStr el.dataSubtitle defaultSubtitle)
      (by decide) (replaceAll titleTok (jsOrStr el.dataTitle defaultTitle) frag)
      with ⟨segs, hne, hin, hout, hfree⟩
    refine ⟨segs, hne, hin, ?_, hfree⟩
    rw [h1]
    exact hout

/-- C3 witness: the amended theorem applied to a concrete blog-header
placeholder. -/
theorem c3_token_substitution_amended_witness :
    (processOne (⟨"blog-header".toList, "/partials/blog-header.html".toList,
        none, none, []⟩ : Placeholder)
        (.success "Hi \x7b\x7btitle\x7d\x7d!".toList)).content
      = replaceAll subtitleTok (jsOrStr none defaultSubtitle)
          (replaceAll titleTok (jsOrStr none defaultTitle)
            "Hi \x7b\x7btitle\x7d\x7d!".toList) :=
  (c3_token_substitution_amended
    (⟨"blog-header".toList, "/partials/blog-header.html".toList, none, none, []⟩ : Placeholder)
    "Hi \x7b\x7btitle\x7d\x7d!".toList rfl).1

/-! ## C5 — degradation under missing markup -/

/-- C5 counterexample: a deck root with a track and one card but no
lightbox markup makes `initDeckCarousel` throw a `TypeError`
(`lbClose.addEventListener` on `null`) instead of no-opping. -/
theorem c5_counterexample_deck_lightbox :
    initDeckCarousel ⟨true, 1, true, true, false, false, false, false, false, false⟩
      = .error (deckTypeError ".deck-lightbox__close".toList) := by
  rfl

/-- C5 (amended): the video modal, mobile nav, contact form and subscribe
form all degrade to a no-op on missing sub-elements, and the deck
carousel no-ops when its track or cards are absent — but a deck with a
track and cards whose lightbox controls are missing raises a `TypeError`
during initialisation rather than no-opping. -/
theorem c5_missing_markup_noop_amended :
    (∀ iframe, videoModalInit false iframe = .ok .noop) ∧
    (∀ modal, videoModalInit modal false = .ok .noop) ∧
    (∀ d ui, ∃ r, openMenu d ui = .ok r) ∧
    (∀ d ui, ∃ r, closeMenu d ui = .ok r) ∧
    (∀ (d : NavDom) ui, d.btn = false → openMenu d ui = .ok ui) ∧
    (∀ (d : NavDom) ui, d.menu = false → openMenu d ui = .ok ui) ∧
    (contactFormInit false = .ok .noop) ∧
    (∀ hasForm s, wireUp false hasForm s = (false, s)) ∧
    (∀ hasRoot s, wireUp hasRoot false s = (false, s)) ∧
    (∀ d : DeckDom, d.track = false → initDeckCarousel d = .ok .noop) ∧
    (∀ d : DeckDom, d.numCards = 0 → initDeckCarousel d = .ok .noop) ∧
    (∀ d : DeckDom, d.track = true → d.numCards ≠ 0 → d.lbClose = false →
      initDeckCarousel d = .error (deckTypeError ".deck-lightbox__close".toList)) := by
  refine ⟨?_, ?_, ?_, ?_, ?_, ?_, rfl, ?_, ?_, ?_, ?_, ?_⟩
  · intro iframe; rfl
  · intro modal; cases modal <;> rfl
  · intro d ui; unfold openMenu; split
    · exact ⟨ui, rfl⟩
    · exact ⟨_, rfl⟩
  · intro d ui; unfold closeMenu; split
    · exact ⟨ui, rfl⟩
    · exact ⟨_, rfl⟩
  · intro d ui h; simp [openMenu, h]
  · intro d ui h; simp [openMenu, h]
  · intro hasForm s; rfl
  · intro hasRoot s; cases hasRoot <;> rfl
  · intro d h; simp [initDeckCarousel, h]
  · intro d h; simp [initDeckCarousel, h]
  · intro d h1 h2 h3
    have hbeq : (d.numCards == 0) = false := by simpa using h2
    simp [initDeckCarousel, h1, h3, hbeq]

/-- C5 witness: the amended theorem applied to a nav with no toggle
button. -/
theorem c5_missing_markup_noop_amended_witness :
    openMenu ⟨false, true, true⟩ ⟨false, true, true, false⟩
      = .ok ⟨false, true, true, false⟩ :=
  c5_missing_markup_noop_amended.2.2.2.2.1 ⟨false, true, true⟩ ⟨false, true, true, false⟩ rfl

/-! ## C7 — script re-activation -/

theorem foldlSetAttributeJS :
    ∀ (l acc : List (List Char × List Char)),
      (∀ a ∈ l, ∀ b ∈ acc, b.1 ≠ a.1) →
      (l.map Prod.fst).Nodup →
      l.foldl (fun acc a => setAttributeJS acc a.1 a.2) acc = acc ++ l := by
  intro l
  induction l with
  | nil => intro acc _ _; simp
  | cons a l ih =>
    intro acc hdisj hnd
    rw [List.foldl_cons]
    have hany : acc.any (fun x => x.1 == a.1) = false := by
      rw [List.any_eq_false]
      intro x hx
      simpa using hdisj a (List.mem_cons_self _ _) x hx
    have hstep : setAttributeJS acc a.1 a.2 = acc ++ [a] := by
      rw [setAttributeJS, if_neg (by simp [hany])]
    rw [hstep]
    have hmap : ((a :: l).map Prod.fst) = a.1 :: l.map Prod.fst := rfl
    rw [hmap] at hnd
    have hnotin : a.1 ∉ l.map Prod.fst := (List.nodup_cons.mp hnd).1
    have hnd' : (l.map Prod.fst).Nodup := (List.nodup_cons.mp hnd).2
    have hdisj' : ∀ x ∈ l, ∀ b ∈ acc ++ [a], b.1 ≠ x.1 := by
      intro x hx b hb
      rcases List.mem_append.mp hb with hb | hb
      · exact hdisj x (List.mem_cons_of_mem _ hx) b hb
      · rcases List.mem_singleton.mp hb with rfl
        intro hc
        exact hnotin (by rw [hc]; exact List.mem_map_of_mem Prod.fst hx)
    rw [ih (acc ++ [a]) hdisj' hnd']
    simp

/-- C7: the loader rebuilds every script of an injected fragment as a
fresh, executing element with the same attributes (given the DOM
invariant that an element's attribute names are distinct) and the same
inline text, one fresh element per original, and no inert script element
remains in the result. -/
theorem c7_script_reactivation (olds : List ScriptEl) :
    (reactivateScripts olds).length = olds.length ∧
    (∀ k (hk : k < olds.length),
      (reactivateScripts olds).get ⟨k, by simpa [reactivateScripts] using hk⟩
        = reactivateScript (olds.get ⟨k, hk⟩)) ∧
    (∀ o : ScriptEl, (o.attrs.map Prod.fst).Nodup →
      (reactivateScript o).attrs = o.attrs ∧
      (reactivateScript o).textContent = some (o.textContent.getD []) ∧
      (reactivateScript o).live = true) ∧
    (∀ sc ∈ reactivateScripts olds, sc.live = true) := by
  refine ⟨by simp [reactivateScripts], ?_, ?_, ?_⟩
  · intro k hk
    simp [reactivateScripts]
  · intro o hnd
    refine ⟨?_, rfl, rfl⟩
    show o.attrs.foldl (fun acc a => setAttributeJS acc a.1 a.2) [] = o.attrs
    rw [foldlSetAttributeJS o.attrs []
      (by intro a _ b hb; exact absurd hb (List.not_mem_nil b)) hnd]
    simp
  · intro sc hsc
    rcases List.mem_map.mp hsc with ⟨o, -, rfl⟩
    rfl

/-- C7 witness: one concrete inline script keeps its attribute list and
text and comes back live. -/
theorem c7_script_reactivation_witness :
    (reactivateScript ⟨[("src".toList, "x.js".toList)], some "hi()".toList, false⟩).attrs
      = [("src".toList, "x.js".toList)] :=
  ((c7_script_reactivation []).2.2.1
    ⟨[("src".toList, "x.js".toList)], some "hi()".toList, false⟩ (by simp)).1

/-! ## C9 — the honeypot -/

/-- C9: on a genuine submit (not mid-flight, submit button present), a
non-whitespace honeypot value makes the handler show the success status,
reset the form, skip field validation entirely and send nothing. -/
theorem c9_honeypot_short_circuit (busy : Bool) (dom : ContactDom) (net : NetOutcome)
    (hbusy : busy = false) (hbtn : dom.hasSubmitBtn = true)
    (v : List Char) (hv : dom.honeypot = some v) (hne : trimJS v ≠ []) :
    handleSubmit busy dom net
      = ⟨some (successMsg, true), true, false, none⟩ := by
  subst hbusy
  have hemp : (trimJS v).isEmpty = false := by
    cases htv : trimJS v with
    | nil => exact absurd htv hne
    | cons a l => rfl
  simp [handleSubmit, hbtn, hv, hemp]

/-- C9 witness: a concrete filled honeypot. -/
theorem c9_honeypot_short_circuit_witness :
    handleSubmit false
      (⟨true, some "spam".toList, some "a".toList, some "a@b.c".toList,
        some "s".toList, some "m".toList⟩ : ContactDom) NetOutcome.ok
      = ⟨some (successMsg, true), true, false, none⟩ :=
  c9_honeypot_short_circuit false
    (⟨true, some "spam".toList, some "a".toList, some "a@b.c".toList,
      some "s".toList, some "m".toList⟩ : ContactDom)
    NetOutcome.ok rfl rfl "spam".toList rfl (by decide)

/-! ## C10 — totality of the start-time parser -/

theorem digitNotSpace (c : Char) (hd : c.isDigit = true) : isJsSpace c = false := by
  cases hs : isJsSpace c
  · rfl
  · exfalso
    unfold isJsSpace at hs
    simp only [Bool.or_eq_true, beq_iff_eq] at hs
    rcases hs with (((((h | h) | h) | h) | h) | h) <;> subst h <;> exact absurd hd (by decide)

theorem parseIntDigitRun (d : List Char) (hne : d ≠ []) (hall : d.all Char.isDigit = true) :
    parseIntJS d = some ((digitsToNat d : Nat) : Int) := by
  cases d with
  | nil => exact absurd rfl hne
  | cons c r =>
    have hc : c.isDigit = true := by
      have := List.all_eq_true.mp hall c (List.mem_cons_self _ _)
      simpa using this
    have hdrop : (c :: r).dropWhile isJsSpace = c :: r := by
      rw [List.dropWhile_cons, digitNotSpace c hc]
      simp
    have htake : (c :: r).takeWhile Char.isDigit = c :: r := takeWhileEqOfAll _ hall
    have hcm : c ≠ '-' := by intro h; rw [h] at hc; exact absurd hc (by decide)
    have hcp : c ≠ '+' := by intro h; rw [h] at hc; exact absurd hc (by decide)
    unfold parseIntJS
    rw [hdrop]
    split
    · rename_i heq
      exact absurd (List.cons_eq_cons.mp heq).1 hcm
    · rename_i heq
      exact absurd (List.cons_eq_cons.mp heq).1 hcp
    · simp [htake]

theorem hmCandGroup (letters cs : List Char) (g : Option (List Char)) (rest : List Char)
    (hmem : (g, rest) ∈ hmCand letters cs) :
    g = none ∨ ∃ d, g = some d ∧ d ≠ [] ∧ d.all Char.isDigit = true := by
  have hallrun : (cs.takeWhile Char.isDigit).all Char.isDigit = true := by
    rw [List.all_eq_true]
    intro x hx
    exact List.mem_takeWhile_imp hx
  unfold hmCand at hmem
  rcases hh : (cs.drop (cs.takeWhile Char.isDigit).length).head? with _ | c
  · rw [hh] at hmem
    simp at hmem
    exact Or.inl hmem.1
  · rw [hh] at hmem
    dsimp only at hmem
    by_cases hcond : cs.takeWhile Char.isDigit ≠ [] ∧ c ∈ letters
    · rw [if_pos hcond] at hmem
      rcases List.mem_cons.mp hmem with heq | hmem'
      · right
        exact ⟨cs.takeWhile Char.isDigit, (Prod.mk.injEq .. ▸ heq : _ ∧ _).1,
          hcond.1, hallrun⟩
      · simp at hmem'
        exact Or.inl hmem'.1
    · rw [if_neg hcond] at hmem
      simp at hmem
      exact Or.inl hmem.1

theorem matchTimeAtGroups (cs : List Char) (g1 g2 g3 : Option (List Char))
    (h : matchTimeAt cs = some (g1, g2, g3)) :
    (g1 = none ∨ ∃ d, g1 = some d ∧ d ≠ [] ∧ d.all Char.isDigit = true) ∧
    (g2 = none ∨ ∃ d, g2 = some d ∧ d ≠ [] ∧ d.all Char.isDigit = true) := by
  unfold matchTimeAt at h
  rcases findSomeExtract _ _ _ h with ⟨a1, ha1, h1⟩
  rcases findSomeExtract _ _ _ h1 with ⟨a2, ha2, h2⟩
  rcases findSomeExtract _ _ _ h2 with ⟨a3, ha3, h3⟩
  have hcomp : a1.1 = g1 ∧ a2.1 = g2 := by
    by_cases he : a3.2 = []
    · rw [if_pos he] at h3
      have h4 := Option.some.inj h3
      exact ⟨congrArg (fun p => p.1) h4, congrArg (fun p => p.2.1) h4⟩
    · rw [if_neg he] at h3
      exact absurd h3 (by simp)
  constructor
  · rw [← hcomp.1]
    exact hmCandGroup ['h', 'H'] cs a1.1 a1.2 ha1
  · rw [← hcomp.2]
    exact hmCandGroup ['m', 'M'] a1.2 a2.1 a2.2 ha2

theorem execTimeGroups :
    ∀ (cs : List Char) (g1 g2 g3 : Option (List Char)),
      execTime cs = some (g1, g2, g3) →
      (g1 = none ∨ ∃ d, g1 = some d ∧ d ≠ [] ∧ d.all Char.isDigit = true) ∧
      (g2 = none ∨ ∃ d, g2 = some d ∧ d ≠ [] ∧ d.all Char.isDigit = true) := by
  intro cs
  induction cs with
  | nil =>
    intro g1 g2 g3 h
    exact matchTimeAtGroups [] g1 g2 g3 h
  | cons c rest ih =>
    intro g1 g2 g3 h
    rw [execTime] at h
    rcases hm : matchTimeAt (c :: rest) with _ | g
    · rw [hm] at h
      exact ih g1 g2 g3 h
    · rw [hm] at h
      exact matchTimeAtGroups (c :: rest) g1 g2 g3 (hm.trans h)

theorem groupOrZeroDigits (g : Option (List Char))
    (hg : g = none ∨ ∃ d, g = some d ∧ d ≠ [] ∧ d.all Char.isDigit = true) :
    groupOrZero g ≠ [] ∧ (groupOrZero g).all Char.isDigit = true := by
  rcases hg with rfl | ⟨d, rfl, hne, hall⟩
  · exact ⟨by decide, by decide⟩
  · rw [groupOrZero, if_neg hne]
    exact ⟨hne, hall⟩

theorem jsOrNumTotal (a : Option Int) (n : Int) : ∃ m, jsOrNum a (some n) = some m := by
  rcases a with _ | k
  · exact ⟨n, rfl⟩
  · by_cases hk : k = 0
    · exact ⟨n, by rw [jsOrNum, if_pos hk]⟩
    · exact ⟨k, by rw [jsOrNum, if_neg hk]⟩

/-- C10: `getStart` is total — it yields an integer (never `NaN`) for
every URL; a URL with no `t` parameter, no `start` parameter and no hash
yields `0`; and `h`/`m`/`s` notation is summed as `h*3600 + m*60 + s`
(`#1h2m3s` gives `3723`). -/
theorem c10_getStart_total :
    (∀ u : URL, ∃ n : Int, getStart u = some n) ∧
    (∀ u : URL, u.getParam ['t'] = none → u.getParam ['s', 't', 'a', 'r', 't'] = none →
      u.hash = [] → getStart u = some 0) ∧
    getStart ⟨"https".toList, "x.com".toList, ['/'], [], "#1h2m3s".toList⟩ = some 3723 := by
  refine ⟨?_, ?_, by decide⟩
  · intro u
    unfold getStart
    by_cases h0 : rawTime u = []
    · rw [if_pos h0]
      exact ⟨0, rfl⟩
    · rw [if_neg h0]
      rcases hexec : execTime (rawTime u) with _ | g
      · rcases hpi : parseIntJS (rawTime u) with _ | n
        · exact ⟨0, rfl⟩
        · exact ⟨n, rfl⟩
      · obtain ⟨g1, g2, g3⟩ := g
        rcases execTimeGroups (rawTime u) g1 g2 g3 hexec with ⟨hg1, hg2⟩
        rcases groupOrZeroDigits g1 hg1 with ⟨hne1, hall1⟩
        rcases groupOrZeroDigits g2 hg2 with ⟨hne2, hall2⟩
        obtain ⟨m, hm⟩ :=
          jsOrNumTotal (jsOrNum (parseIntJS (groupOrZero g3)) (parseIntJS (rawTime u))) 0
        refine ⟨(digitsToNat (groupOrZero g1) : Int) * 3600
            + (digitsToNat (groupOrZero g2) : Int) * 60 + m, ?_⟩
        show jsAdd (jsAdd (jsMul (parseIntJS (groupOrZero g1)) 3600)
            (jsMul (parseIntJS (groupOrZero g2)) 60))
            (jsOrNum (jsOrNum (parseIntJS (groupOrZero g3)) (parseIntJS (rawTime u))) (some 0))
          = some ((digitsToNat (groupOrZero g1) : Int) * 3600
              + (digitsToNat (groupOrZero g2) : Int) * 60 + m)
        rw [parseIntDigitRun _ hne1 hall1, parseIntDigitRun _ hne2 hall2, hm]
        simp [jsMul, jsAdd]
  · intro u h1 h2 h3
    have hraw : rawTime u = [] := by
      unfold rawTime
      rw [h1, h2, h3]
      rfl
    unfold getStart
    rw [if_pos hraw]

/-- C10 witness: the totality conjunct applied to a concrete URL and the
no-timestamp conjunct applied to a bare URL. -/
theorem c10_getStart_total_witness :
    getStart ⟨"https".toList, "x.com".toList, ['/'], [], []⟩ = some 0 :=
  c10_getStart_total.2.1 ⟨"https".toList, "x.com".toList, ['/'], [], []⟩ rfl rfl rfl

end Portfolio
